import Mathlib

/-!
Shallow embedding of the video annotation core of this repository
(`video_annotator.py`, plus the gap-fill routine of `gaze_encoder_app.py`),
together with theorems settling the spec's claims about it.

Conventions of the embedding:
* A decoded frame is represented by its index (`Nat`); frame equality and
  `frame.copy()` aliasing questions are outside the claims checked here.
* The decoder backend (`cv2.VideoCapture`) is modelled by `SynStream`, the
  synthetic stream of the spec's count-authority property: decoding succeeds
  exactly at positions `< n`, a seek clamps the cursor into `[0, n]` (the
  backend "lands" at the end of the stream when asked to seek past it), and a
  failed read leaves the cursor where it is.
* Python `dict[int, ...]` is an insertion-ordered association list with unique
  keys (`dictInsert` replaces in place, appends fresh keys).
* A CSV row as seen through `csv.DictReader` / `csv.DictWriter` is `Row`; a
  cell value is `Option String` (`none` = column absent).  The `frame` cell is
  carried as `Option Int`: `some k` when `int(row["frame"])` yields `k`,
  `none` when the column is missing or its text does not parse as an integer,
  either of which raises out of `load_csv` (`KeyError` / `ValueError`).
* Fallible Python code becomes `Option`: a `none` result of `load_csv` or
  `load_video` is an escaped exception.
-/

namespace MIGE

/-- One label: the `{"mode": ..., "group": ...}` dict stored per frame. -/
structure Label where
  mode : String
  group : String
deriving DecidableEq

/-- `self.annotations`: a Python `dict[int, dict[str, str]]`, modelled as an
insertion-ordered association list with unique keys. -/
abbrev AnnMap := List (Int × Label)

/-- Python `dict.get`: first binding of the key, if any. -/
def dictGet : AnnMap → Int → Option Label
  | [], _ => none
  | (k', v) :: t, k => if k' = k then some v else dictGet t k

/-- Python `dict.__setitem__`: replace the binding in place if the key is
present, append it otherwise. -/
def dictInsert : AnnMap → Int → Label → AnnMap
  | [], k, v => [(k, v)]
  | (k', v') :: t, k, v =>
    if k' = k then (k, v) :: t else (k', v') :: dictInsert t k v

/-- A sidecar CSV row as exposed by `csv.DictReader` (cells of the columns the
source consults).  `frame` is the parse outcome of `int(row["frame"])`. -/
structure Row where
  frame : Option Int
  mode : Option String
  tag : Option String
  name : Option String
  group : Option String
  label : Option String
deriving DecidableEq

/-- Python `a or b` on optional strings: `a` when it is a non-empty string,
`b` otherwise (`None` and `""` are falsy). -/
def pyOrS : Option String → Option String → Option String
  | some s, b => if s = "" then b else some s
  | none, b => b

/-- Python `a or b` where `b` is already a plain string. -/
def pyOrStr : Option String → String → String
  | some s, b => if s = "" then b else s
  | none, b => b

/-- Processing of one row inside `load_csv`'s loop.  `none` models the raised
`KeyError`/`ValueError` of `int(row["frame"])`. -/
def load_row (m : AnnMap) (r : Row) : Option AnnMap :=
  match r.frame with
  | none => none      -- frame = int(row["frame"]) raises
  | some frame =>
    -- mode_val = row.get("mode") or row.get("tag") or row.get("name")
    let mode_val := pyOrS (pyOrS r.mode r.tag) r.name
    -- group_val = row.get("group") or row.get("label", "")
    let group_val := pyOrStr r.group (r.label.getD "")
    match mode_val with
    | none => some m                      -- if not mode_val: continue
    | some s =>
      if s = "" then some m               -- if not mode_val: continue
      else some (dictInsert m frame { mode := s, group := group_val })

/-- The row loop of `load_csv` over the parsed file contents. -/
def load_csv_rows : AnnMap → List Row → Option AnnMap
  | m, [] => some m
  | m, r :: rs =>
    match load_row m r with
    | none => none
    | some m' => load_csv_rows m' rs

/-- `load_csv(csv_path)`: absent file (`not os.path.exists`) is a silent no-op,
otherwise run the row loop.  `fs` is the filesystem: contents of the CSV file
at each path, when it exists. -/
def load_csv (fs : String → Option (List Row)) (csv_path : String) (m : AnnMap) :
    Option AnnMap :=
  match fs csv_path with
  | none => some m
  | some rows => load_csv_rows m rows

/-- The row `csv.DictWriter` emits for key `k` of the map: columns
`frame,mode,group` only.  (`self.annotations[frame]` cannot raise: `frame`
ranges over the map's own keys, so the `none` branch is unreachable.) -/
def row_for (m : AnnMap) (k : Int) : Row :=
  match dictGet m k with
  | some l =>
    { frame := some k, mode := some l.mode, tag := none, name := none,
      group := some l.group, label := none }
  | none =>
    { frame := some k, mode := none, tag := none, name := none,
      group := none, label := none }

/-- The full row list `save_csv` writes: one row per annotation entry, in
ascending key order (`for frame in sorted(self.annotations.keys())`).  The
constant header row is not represented. -/
def save_rows (m : AnnMap) : List Row :=
  (List.insertionSort (· ≤ ·) (m.map Prod.fst)).map (row_for m)

/-- Index of the last occurrence of `c` in `cs` (Python `str.rfind`), if any. -/
def lastIdxOf (cs : List Char) (c : Char) : Option Nat :=
  match cs.reverse.findIdx? (fun d => d = c) with
  | some j => some (cs.length - 1 - j)
  | none => none

/-- Model of `os.path.splitext(p)[0]` (CPython `posixpath.splitext`): the
extension starts at the last dot strictly after the last slash, provided some
character of the basename before that dot is not itself a dot. -/
def splitext_base (p : String) : String :=
  let cs := p.toList
  let sepIdx : Int := match lastIdxOf cs '/' with | some i => (i : Int) | none => -1
  let dotIdx : Int := match lastIdxOf cs '.' with | some i => (i : Int) | none => -1
  if sepIdx < dotIdx then
    let basePart := (cs.take dotIdx.toNat).drop (sepIdx + 1).toNat
    if basePart.any (fun d => d ≠ '.') then String.mk (cs.take dotIdx.toNat) else p
  else p

/-- `derive_csv_path` as a function of `self.path` (`if not self.path` catches
both `None` and the empty string). -/
def derive_csv_path_of : Option String → String
  | none => ""
  | some p => if p = "" then "" else splitext_base p ++ "_labels.csv"

/-- Synthetic decoder stream standing for an opened `cv2.VideoCapture`:
decode succeeds exactly at positions `< n`; `reported` is the container's
`CAP_PROP_FRAME_COUNT`; `fps` its `CAP_PROP_FPS`; `pos` the read cursor. -/
structure SynStream where
  n : Nat
  reported : Int
  fps : ℚ
  pos : Int
  released : Bool
deriving DecidableEq

/-- `cap.set(cv2.CAP_PROP_POS_FRAMES, p)`: the backend lands inside `[0, n]`. -/
def setPos (s : SynStream) (p : Int) : SynStream :=
  { s with pos := max 0 (min p (s.n : Int)) }

/-- `cap.read()`: succeeds exactly when the cursor sits on a decodable
position, advancing the cursor; a failed read moves nothing. -/
def readS (s : SynStream) : Option Nat × SynStream :=
  if s.released then (none, s)
  else if 0 ≤ s.pos ∧ s.pos < (s.n : Int) then
    (some s.pos.toNat, { s with pos := s.pos + 1 })
  else (none, s)

/-- `cap.grab()`: same success condition and cursor motion as `read`, no frame. -/
def grabS (s : SynStream) : Bool × SynStream :=
  let r := readS s
  (r.1.isSome, r.2)

/-- `cap.release()`. -/
def releaseS (s : SynStream) : SynStream := { s with released := true }

/-- The `while True: cap.grab()` counting loop of `_probe_frame_count`.  The
loop is embedded with explicit fuel; `s.n + 1` units always suffice because
each successful grab advances the cursor towards `n` (see `grabAux_count`). -/
def grabAux : SynStream → Nat → Nat × SynStream
  | s, 0 => (0, s)
  | s, fuel + 1 =>
    match grabS s with
    | (false, s') => (0, s')
    | (true, s') =>
      let r := grabAux s' fuel
      (r.1 + 1, r.2)

/-- The grab-count loop run to exhaustion. -/
def grabAll (s : SynStream) : Nat × SynStream := grabAux s (s.n + 1)

/-- Tail of `_probe_frame_count` (lines 77-85): reset the cursor, count
successful grabs, reset again, return `max(count, reported)`. -/
def probe_grab_tail (cap : SynStream) (reported : Int) : Int × SynStream :=
  let cap := setPos cap 0
  let r := grabAll cap
  (max (r.1 : Int) reported, setPos r.2 0)

/-- `VideoAnnotatorCore._probe_frame_count`. -/
def probe_frame_count (cap : SynStream) : Int × SynStream :=
  let reported : Int := cap.reported
  if 0 < reported then
    let cap := setPos cap (max 0 (reported - 1))
    match readS cap with
    | (some _, cap) => (reported, setPos cap 0)
    | (none, cap) =>
      let fallback := cap.pos
      let cap := setPos cap 0
      if 0 < fallback then (fallback, cap)
      else probe_grab_tail cap reported
  else probe_grab_tail cap reported

/-- The whole mutable state of one `VideoAnnotatorCore` instance. -/
structure CoreState where
  cap : Option SynStream
  path : Option String
  frame_count : Int
  fps : ℚ
  current_frame : Int
  annotations : AnnMap
  frame_cache : List Nat
deriving DecidableEq

/-- `__init__`. -/
def initState : CoreState :=
  { cap := none, path := none, frame_count := 0, fps := 30, current_frame := 0,
    annotations := [], frame_cache := [] }

/-- `derive_csv_path` proper. -/
def derive_csv_path (st : CoreState) : String := derive_csv_path_of st.path

/-- `save_csv`, returning the file contents written (`none` when `not
self.path` makes the call a no-op; the write target is `derive_csv_path`). -/
def save_csv (st : CoreState) : Option (List Row) :=
  match st.path with
  | none => none
  | some p => if p = "" then none else some (save_rows st.annotations)

/-- The cache-priming `for _ in range(prime_count)` loop of `load_video`:
sequential reads, stopping at the first failure, retaining copies. -/
def prime_cache : SynStream → Nat → List Nat × SynStream
  | s, 0 => ([], s)
  | s, k + 1 =>
    match readS s with
    | (none, s') => ([], s')
    | (some f, s') =>
      let r := prime_cache s' k
      (f :: r.1, r.2)

/-- `load_video(filepath)`.  `openv` is the backend's open-by-path (`none`
when `cap.isOpened()` is false), `fs` the filesystem seen by `load_csv`.  The
overall `none` is an exception escaping from `load_csv`. -/
def load_video (openv : String → Option SynStream) (fs : String → Option (List Row))
    (st : CoreState) (filepath : String) : Option (Bool × CoreState) :=
  -- if self.cap: self.cap.release()
  let st := { st with cap := st.cap.map releaseS }
  match openv filepath with
  | none => some (false, st)      -- if not cap.isOpened(): return False
  | some cap =>
    -- self.frame_count = self._probe_frame_count(cap)
    let pr := probe_frame_count cap
    let frame_count := pr.1
    let cap := pr.2
    -- self.fps = fps if fps > 0 else 30.0
    let fps := if 0 < cap.fps then cap.fps else 30
    -- self.annotations.clear(); self.load_csv(self.derive_csv_path())
    match load_csv fs (derive_csv_path_of (some filepath)) [] with
    | none => none
    | some anns =>
      -- prime_count = min(60, self.frame_count); sequential reads from 0
      let pl := prime_cache (setPos cap 0) (min 60 frame_count).toNat
      let cache := pl.1
      let cap := pl.2
      let cap :=
        if (cache.length : Int) < frame_count then setPos cap (cache.length : Int)
        else setPos cap 0
      some (true,
        { cap := some cap, path := some filepath, frame_count := frame_count,
          fps := fps, current_frame := 0, annotations := anns,
          frame_cache := cache })

/-- `read_next_frame`. -/
def read_next_frame (st : CoreState) : Option Nat × CoreState :=
  match st.cap with
  | none => (none, st)
  | some cap =>
    match readS cap with
    | (none, cap') => (none, { st with cap := some cap' })
    | (some f, cap') =>
      (some f, { st with cap := some cap', current_frame := st.current_frame + 1 })

/-- `_read_from_cap(frame_index)`: random seek-and-read with the one-step
retry.  (The source's own `if not self.cap` re-check is the `Option` match
already performed by `get_frame`.) -/
def read_from_cap (cap : SynStream) (frame_index : Int) : Option Nat × SynStream :=
  let cap := setPos cap frame_index
  match readS cap with
  | (some f, cap) => (some f, cap)
  | (none, cap) =>
    if 0 < frame_index then
      let cap := setPos cap (max 0 (frame_index - 1))
      let cap := (readS cap).2          -- discard
      let cap := setPos cap frame_index
      match readS cap with
      | (some f, cap) => (some f, cap)
      | (none, cap) => (none, cap)
    else (none, cap)

/-- `get_frame(frame_index)`.  Cache entries are decoded frames, so the
source's trailing `if frame is None` test is vacuous on the cache branch. -/
def get_frame (st : CoreState) (frame_index : Int) : Option Nat × CoreState :=
  match st.cap with
  | none => (none, st)
  | some cap =>
    if frame_index < 0 ∨ st.frame_count ≤ frame_index then (none, st)
    else if h : frame_index.toNat < st.frame_cache.length then
      (some (st.frame_cache.get ⟨frame_index.toNat, h⟩),
        { st with current_frame := frame_index })
    else
      match read_from_cap cap frame_index with
      | (none, cap') => (none, { st with cap := some cap' })
      | (some f, cap') =>
        (some f, { st with cap := some cap', current_frame := frame_index })

/-- `set_label(frame, mode, group)`: upsert, then persist; the second
component is the file written by the triggered `save_csv`. -/
def set_label (st : CoreState) (frame : Int) (mode group : String) :
    CoreState × Option (List Row) :=
  let st := { st with annotations := dictInsert st.annotations frame { mode := mode, group := group } }
  (st, save_csv st)

/-- `get_label(frame=None)`. -/
def get_label (st : CoreState) (frame : Option Int) : Option Label :=
  dictGet st.annotations (frame.getD st.current_frame)

/-- Downward half of `_find_neighbor_label` (`step = -1`), scanning
`i, i-1, ..., 0`.  The `while` guard `0 <= idx < frame_count` is monotone
downwards once true, so it is checked once by the wrapper. -/
def find_nbr_down_aux (ann : AnnMap) : Nat → Option (Int × Label)
  | 0 =>
    match dictGet ann 0 with
    | some l => some (0, l)
    | none => none
  | i + 1 =>
    match dictGet ann ((i + 1 : Nat) : Int) with
    | some l => some (((i + 1 : Nat) : Int), l)
    | none => find_nbr_down_aux ann i

/-- `_find_neighbor_label(start_idx, -1)`. -/
def find_neighbor_down (ann : AnnMap) (frame_count start_idx : Int) :
    Option (Int × Label) :=
  if start_idx - 1 < 0 ∨ frame_count ≤ start_idx - 1 then none
  else find_nbr_down_aux ann (start_idx - 1).toNat

/-- Upward half of `_find_neighbor_label` (`step = +1`): scan from `idx`
upwards for `fuel` steps, `fuel` being how many indices of `[idx, frame_count)`
remain. -/
def find_nbr_up_aux (ann : AnnMap) : Int → Nat → Option (Int × Label)
  | _, 0 => none
  | idx, fuel + 1 =>
    match dictGet ann idx with
    | some l => some (idx, l)
    | none => find_nbr_up_aux ann (idx + 1) fuel

/-- `_find_neighbor_label(start_idx, +1)`. -/
def find_neighbor_up (ann : AnnMap) (frame_count start_idx : Int) :
    Option (Int × Label) :=
  if start_idx + 1 < 0 ∨ frame_count ≤ start_idx + 1 then none
  else find_nbr_up_aux ann (start_idx + 1) (frame_count - (start_idx + 1)).toNat

/-- Python `range(a, b)` over integers. -/
def int_range (a b : Int) : List Int :=
  (List.range (b - a).toNat).map (fun (j : Nat) => a + (j : Int))

/-- The caller-visible outcome of `fill_between_labels` (via its message
boxes): no video loaded / cursor already labeled / missing-or-mismatched
boundary labels / nothing to fill / `filled` frames written. -/
inductive FillOutcome
  | noVideo
  | alreadyLabeled
  | badBoundaries
  | noUnlabeled
  | filled (k : Nat)
deriving DecidableEq

/-- `GazeEncoderApp.fill_between_labels`, restricted to its effect on the
core state; the last component is the file written by the triggered
`save_csv`, if any. -/
def fill_between_labels (st : CoreState) : FillOutcome × CoreState × Option (List Row) :=
  match st.cap with
  | none => (.noVideo, st, none)
  | some _ =>
    let cur := st.current_frame
    match get_label st (some cur) with
    | some _ => (.alreadyLabeled, st, none)
    | none =>
      match find_neighbor_down st.annotations st.frame_count cur,
            find_neighbor_up st.annotations st.frame_count cur with
      | some (prev_idx, prev_label), some (next_idx, next_label) =>
        if prev_label.mode = next_label.mode ∧ prev_label.group = next_label.group then
          let fill_mode := prev_label.mode
          let fill_group := prev_label.group
          let r := (int_range (prev_idx + 1) next_idx).foldl
            (fun (acc : AnnMap × Nat) idx =>
              match dictGet acc.1 idx with
              | none => (dictInsert acc.1 idx { mode := fill_mode, group := fill_group }, acc.2 + 1)
              | some _ => acc)
            (st.annotations, 0)
          if r.2 = 0 then (.noUnlabeled, { st with annotations := r.1 }, none)
          else
            let st' := { st with annotations := r.1 }
            (.filled r.2, st', save_csv st')
        else (.badBoundaries, st, none)
      | _, _ => (.badBoundaries, st, none)

/-! ### Association-list (Python dict) lemmas -/

theorem dictGet_insert (m : AnnMap) (k j : Int) (v : Label) :
    dictGet (dictInsert m k v) j = if k = j then some v else dictGet m j := by
  induction m with
  | nil => simp [dictInsert, dictGet]
  | cons hd t ih =>
    obtain ⟨k', v'⟩ := hd
    by_cases h : k' = k
    · subst h
      by_cases hj : k' = j <;> simp [dictInsert, dictGet, hj]
    · by_cases hj : k' = j
      · subst hj
        have hkj : ¬ (k = k') := fun e => h e.symm
        simp [dictInsert, dictGet, h, hkj]
      · simp [dictInsert, dictGet, h, hj, ih]

theorem dictGet_eq_none (m : AnnMap) (k : Int) (h : k ∉ m.map Prod.fst) :
    dictGet m k = none := by
  induction m with
  | nil => rfl
  | cons hd t ih =>
    simp only [List.map_cons, List.mem_cons] at h
    push_neg at h
    obtain ⟨k', v'⟩ := hd
    simp only [dictGet]
    rw [if_neg (fun e => h.1 e.symm)]
    exact ih h.2

theorem dictGet_isSome_of_mem (m : AnnMap) (k : Int) (h : k ∈ m.map Prod.fst) :
    (dictGet m k).isSome := by
  induction m with
  | nil => simp at h
  | cons hd t ih =>
    obtain ⟨k', v'⟩ := hd
    by_cases hk : k' = k
    · simp [dictGet, hk]
    · simp only [List.map_cons, List.mem_cons] at h
      rcases h with h | h
      · exact absurd h.symm hk
      · simpa [dictGet, hk] using ih h

theorem dictGet_mem (m : AnnMap) (k : Int) (v : Label) (h : dictGet m k = some v) :
    (k, v) ∈ m := by
  induction m with
  | nil => simp [dictGet] at h
  | cons hd t ih =>
    obtain ⟨k', v'⟩ := hd
    by_cases hk : k' = k
    · subst hk
      have hv : dictGet ((k', v') :: t) k' = some v' := by simp [dictGet]
      rw [hv] at h
      injection h with h
      subst h
      exact List.mem_cons_self _ _
    · simp only [dictGet, if_neg hk] at h
      exact List.mem_cons_of_mem _ (ih h)

theorem mem_keys_of_dictGet (m : AnnMap) (k : Int) (v : Label)
    (h : dictGet m k = some v) : k ∈ m.map Prod.fst :=
  List.mem_map.mpr ⟨(k, v), dictGet_mem m k v h, rfl⟩

theorem dictInsert_keys (m : AnnMap) (k : Int) (v : Label) :
    (dictInsert m k v).map Prod.fst =
      if k ∈ m.map Prod.fst then m.map Prod.fst else m.map Prod.fst ++ [k] := by
  induction m with
  | nil => simp [dictInsert]
  | cons hd t ih =>
    obtain ⟨a, b⟩ := hd
    by_cases ha : a = k
    · subst ha
      simp [dictInsert]
    · have hak : ¬ k = a := fun e => ha e.symm
      simp only [dictInsert, if_neg ha, List.map_cons, ih, List.mem_cons]
      by_cases hmem : k ∈ t.map Prod.fst
      · simp [hmem, hak]
      · simp [hmem, hak]

theorem dictInsert_keys_nodup (m : AnnMap) (k : Int) (v : Label)
    (h : (m.map Prod.fst).Nodup) : ((dictInsert m k v).map Prod.fst).Nodup := by
  rw [dictInsert_keys]
  by_cases hmem : k ∈ m.map Prod.fst
  · simpa [hmem] using h
  · rw [if_neg hmem]
    refine List.Nodup.append h (List.nodup_singleton k) ?_
    intro a ha hb
    rw [List.mem_singleton] at hb
    subst hb
    exact hmem ha

/-! ### Sorted/strict helper -/

theorem pairwise_lt_of_sorted_nodup : ∀ (l : List Int),
    List.Pairwise (· ≤ ·) l → l.Nodup → List.Pairwise (· < ·) l
  | [], _, _ => List.Pairwise.nil
  | a :: t, hs, hn => by
    rw [List.pairwise_cons] at hs ⊢
    rw [List.nodup_cons] at hn
    refine ⟨fun b hb => lt_of_le_of_ne (hs.1 b hb) ?_,
      pairwise_lt_of_sorted_nodup t hs.2 hn.2⟩
    intro e
    exact hn.1 (e ▸ hb)

theorem row_for_frame (m : AnnMap) (k : Int) : (row_for m k).frame = some k := by
  unfold row_for
  cases dictGet m k <;> rfl

theorem filterMap_frame_save_rows (m : AnnMap) :
    (save_rows m).filterMap Row.frame = List.insertionSort (· ≤ ·) (m.map Prod.fst) := by
  unfold save_rows
  generalize List.insertionSort (· ≤ ·) (m.map Prod.fst) = l
  induction l with
  | nil => rfl
  | cons a t ih => simp [List.filterMap_cons, row_for_frame, ih]

/-! ### Loading back what save_csv wrote -/

theorem load_row_saved (m : AnnMap) (k : Int) (v : Label) :
    load_row m { frame := some k, mode := some v.mode, tag := none, name := none,
                 group := some v.group, label := none } =
      some (if v.mode = "" then m else dictInsert m k v) := by
  by_cases h : v.mode = "" <;> by_cases hg : v.group = "" <;>
    simp [load_row, pyOrS, pyOrStr, h, hg] <;> rw [← hg]

theorem row_for_eq (m : AnnMap) (k : Int) (v : Label) (h : dictGet m k = some v) :
    row_for m k = { frame := some k, mode := some v.mode, tag := none, name := none,
                    group := some v.group, label := none } := by
  simp [row_for, h]

/-- Running `load_csv`'s row loop over the rows written for a nodup key list
whose keys are all present in `M` and absent from the accumulator: the load
succeeds, adding exactly the listed entries whose mode is non-empty. -/
theorem load_csv_rows_saved (M : AnnMap) :
    ∀ (l : List Int) (acc : AnnMap), l.Nodup →
    (∀ k ∈ l, dictGet acc k = none) →
    (∀ k ∈ l, (dictGet M k).isSome) →
    ∃ m', load_csv_rows acc (l.map (row_for M)) = some m' ∧
      ∀ k, dictGet m' k =
        if k ∈ l ∧ ((dictGet M k).getD ⟨"", ""⟩).mode ≠ ""
          then some ((dictGet M k).getD ⟨"", ""⟩)
          else dictGet acc k := by
  intro l
  induction l with
  | nil =>
    intro acc _ _ _
    exact ⟨acc, rfl, by simp⟩
  | cons j t ih =>
    intro acc hnd hacc hsome
    obtain ⟨v, hv⟩ := Option.isSome_iff_exists.mp (hsome j (by simp))
    have hjt : j ∉ t := (List.nodup_cons.mp hnd).1
    have hstep : load_csv_rows acc ((j :: t).map (row_for M)) =
        load_csv_rows (if v.mode = "" then acc else dictInsert acc j v)
          (t.map (row_for M)) := by
      simp only [List.map_cons, load_csv_rows, row_for_eq M j v hv, load_row_saved]
    by_cases hm : v.mode = ""
    · rw [if_pos hm] at hstep
      obtain ⟨m', heq, hlook⟩ := ih acc (List.nodup_cons.mp hnd).2
        (fun k hk => hacc k (List.mem_cons_of_mem _ hk))
        (fun k hk => hsome k (List.mem_cons_of_mem _ hk))
      refine ⟨m', hstep.trans heq, fun k => ?_⟩
      rw [hlook k]
      by_cases hkj : k = j
      · subst hkj
        simp [hjt, hv, hm]
      · simp [List.mem_cons, hkj]
    · rw [if_neg hm] at hstep
      obtain ⟨m', heq, hlook⟩ := ih (dictInsert acc j v) (List.nodup_cons.mp hnd).2
        (fun k hk => by
          rw [dictGet_insert]
          rw [if_neg (fun e : j = k => hjt (e ▸ hk))]
          exact hacc k (List.mem_cons_of_mem _ hk))
        (fun k hk => hsome k (List.mem_cons_of_mem _ hk))
      refine ⟨m', hstep.trans heq, fun k => ?_⟩
      rw [hlook k]
      by_cases hkj : k = j
      · subst hkj
        simp [hjt, hv, hm, dictGet_insert]
      · rw [dictGet_insert, if_neg (fun e : j = k => hkj e.symm)]
        simp [List.mem_cons, hkj]

/-! ### Claims C2, C9: save/load round trip -/

/-- C2: for every AnnotationMap whose entries all carry a non-empty mode,
writing it with SaveSidecar (`save_csv`) and loading the produced file with
LoadSidecar (`load_csv`) into a fresh empty ledger yields a map equal to the
original, entries with empty group included. -/
theorem save_load_roundtrip (M : AnnMap) (p : String)
    (hnd : (M.map Prod.fst).Nodup)
    (hm : ∀ e ∈ M, e.2.mode ≠ "") :
    ∃ m', load_csv (fun _ => some (save_rows M)) p [] = some m' ∧
      ∀ k, dictGet m' k = dictGet M k := by
  have hperm := List.perm_insertionSort (· ≤ ·) (M.map Prod.fst)
  have hndl : (List.insertionSort (· ≤ ·) (M.map Prod.fst)).Nodup :=
    hperm.nodup_iff.mpr hnd
  obtain ⟨m', heq, hlook⟩ := load_csv_rows_saved M
    (List.insertionSort (· ≤ ·) (M.map Prod.fst)) [] hndl
    (fun k _ => rfl)
    (fun k hk => dictGet_isSome_of_mem M k (hperm.mem_iff.mp hk))
  refine ⟨m', ?_, fun k => ?_⟩
  · simpa [load_csv, save_rows] using heq
  · rw [hlook k]
    cases hv : dictGet M k with
    | none =>
      have hnk : k ∉ List.insertionSort (· ≤ ·) (M.map Prod.fst) := by
        intro hk
        have hs := dictGet_isSome_of_mem M k (hperm.mem_iff.mp hk)
        rw [hv] at hs
        simp at hs
      simp [hnk, dictGet]
    | some v =>
      have hkmem : k ∈ List.insertionSort (· ≤ ·) (M.map Prod.fst) :=
        hperm.mem_iff.mpr (mem_keys_of_dictGet M k v hv)
      have hvm : v.mode ≠ "" := hm (k, v) (dictGet_mem M k v hv)
      simp [hkmem, hv, hvm]

/-- C2 witness: a concrete round trip, with one empty-group entry. -/
theorem save_load_roundtrip_witness :
    ∃ m', load_csv (fun _ => some (save_rows [(3, ⟨"A", ""⟩), (1, ⟨"B", "g"⟩)]))
        "v_labels.csv" [] = some m' ∧
      ∀ k, dictGet m' k = dictGet [(3, ⟨"A", ""⟩), (1, ⟨"B", "g"⟩)] k :=
  save_load_roundtrip [(3, ⟨"A", ""⟩), (1, ⟨"B", "g"⟩)] "v_labels.csv"
    (by decide) (by decide)

/-- C9: SaveSidecar writes a row even for an entry with empty mode, but
LoadSidecar skips that row, so save-then-load drops exactly the empty-mode
entries (and hence the unconditioned round-trip property fails). -/
theorem save_load_drops_empty_mode (M : AnnMap) (p : String)
    (hnd : (M.map Prod.fst).Nodup) :
    (∃ m', load_csv (fun _ => some (save_rows M)) p [] = some m' ∧
      ∀ k, dictGet m' k = match dictGet M k with
        | some l => if l.mode = "" then none else some l
        | none => none) ∧
    (∀ k l, dictGet M k = some l →
      ({ frame := some k, mode := some l.mode, tag := none, name := none,
         group := some l.group, label := none } : Row) ∈ save_rows M) := by
  have hperm := List.perm_insertionSort (· ≤ ·) (M.map Prod.fst)
  constructor
  · have hndl : (List.insertionSort (· ≤ ·) (M.map Prod.fst)).Nodup :=
      hperm.nodup_iff.mpr hnd
    obtain ⟨m', heq, hlook⟩ := load_csv_rows_saved M
      (List.insertionSort (· ≤ ·) (M.map Prod.fst)) [] hndl
      (fun k _ => rfl)
      (fun k hk => dictGet_isSome_of_mem M k (hperm.mem_iff.mp hk))
    refine ⟨m', ?_, fun k => ?_⟩
    · simpa [load_csv, save_rows] using heq
    · rw [hlook k]
      cases hv : dictGet M k with
      | none =>
        have hnk : k ∉ List.insertionSort (· ≤ ·) (M.map Prod.fst) := by
          intro hk
          have hs := dictGet_isSome_of_mem M k (hperm.mem_iff.mp hk)
          rw [hv] at hs
          simp at hs
        simp [hnk, dictGet]
      | some v =>
        have hkmem : k ∈ List.insertionSort (· ≤ ·) (M.map Prod.fst) :=
          hperm.mem_iff.mpr (mem_keys_of_dictGet M k v hv)
        by_cases hvm : v.mode = ""
        · simp [hkmem, hv, hvm, dictGet]
        · simp [hkmem, hv, hvm]
  · intro k l h
    have hkmem : k ∈ List.insertionSort (· ≤ ·) (M.map Prod.fst) :=
      hperm.mem_iff.mpr (mem_keys_of_dictGet M k l h)
    exact List.mem_map.mpr ⟨k, hkmem, row_for_eq M k l h⟩

/-- C9 witness at a concrete map with one empty-mode entry. -/
theorem save_load_drops_empty_mode_witness :
    (∃ m', load_csv (fun _ => some (save_rows [(2, ⟨"", "g"⟩), (1, ⟨"B", "g"⟩)]))
        "v_labels.csv" [] = some m' ∧
      ∀ k, dictGet m' k = match dictGet [(2, ⟨"", "g"⟩), (1, ⟨"B", "g"⟩)] k with
        | some l => if l.mode = "" then none else some l
        | none => none) ∧
    (∀ k l, dictGet [(2, ⟨"", "g"⟩), (1, ⟨"B", "g"⟩)] k = some l →
      ({ frame := some k, mode := some l.mode, tag := none, name := none,
         group := some l.group, label := none } : Row) ∈
        save_rows [(2, ⟨"", "g"⟩), (1, ⟨"B", "g"⟩)]) :=
  save_load_drops_empty_mode [(2, ⟨"", "g"⟩), (1, ⟨"B", "g"⟩)] "v_labels.csv"
    (by decide)

/-! ### Claims C4, C10: load_csv row handling -/

theorem load_row_isSome (m : AnnMap) (r : Row) (k : Int) (h : r.frame = some k) :
    ∃ m', load_row m r = some m' := by
  unfold load_row
  rw [h]
  cases hmv : pyOrS (pyOrS r.mode r.tag) r.name with
  | none => exact ⟨m, by simp [hmv]⟩
  | some s =>
    by_cases hs : s = ""
    · exact ⟨m, by simp [hmv, hs]⟩
    · exact ⟨dictInsert m k { mode := s, group := pyOrStr r.group (r.label.getD "") },
        by simp [hmv, hs]⟩

/-- C4 counterexample: a file containing a row whose `frame` cell is missing
or does not parse as an integer makes LoadSidecar abort with an exception
(`int(row["frame"])` runs before the mode check), so the call does not return
normally for every sidecar file content. -/
theorem load_csv_bad_frame_cex :
    load_csv (fun _ => some [{ frame := none, mode := some "A", tag := none,
                               name := none, group := some "g", label := none }])
      "v_labels.csv" [] = none := rfl

/-- C4 amended: LoadSidecar returns normally for every file in which each
row's frame cell parses as an integer, silently skipping any row lacking a
usable mode value; only a row whose frame cell is missing or non-integer
aborts it. -/
theorem load_csv_amended :
    (∀ (rows : List Row) (m : AnnMap), (∀ r ∈ rows, r.frame ≠ none) →
      ∃ m', load_csv_rows m rows = some m') ∧
    (∀ (m : AnnMap) (r : Row) (k : Int), r.frame = some k →
      pyOrS (pyOrS r.mode r.tag) r.name = none ∨
        pyOrS (pyOrS r.mode r.tag) r.name = some "" →
      load_row m r = some m) := by
  constructor
  · intro rows
    induction rows with
    | nil => exact fun m _ => ⟨m, rfl⟩
    | cons r rs ih =>
      intro m hall
      have hf := hall r (List.mem_cons_self _ _)
      obtain ⟨k, hk⟩ := Option.ne_none_iff_exists'.mp hf
      obtain ⟨m1, hm1⟩ := load_row_isSome m r k hk
      obtain ⟨m', hm'⟩ := ih m1 (fun x hx => hall x (List.mem_cons_of_mem _ hx))
      exact ⟨m', by simp [load_csv_rows, hm1, hm']⟩
  · intro m r k hf hmode
    unfold load_row
    rw [hf]
    rcases hmode with h | h <;> simp [h]

/-- C4 amended witness: a frame-parseable, mode-less row is skipped and the
load of a file of such rows succeeds. -/
theorem load_csv_amended_witness :
    (∃ m', load_csv_rows [] [{ frame := some 4, mode := none, tag := none,
                               name := none, group := none, label := none }] = some m') ∧
    load_row [] { frame := some 4, mode := none, tag := none, name := none,
                  group := none, label := none } = some [] :=
  ⟨load_csv_amended.1 _ [] (by decide),
   load_csv_amended.2 [] _ 4 rfl (Or.inl rfl)⟩

/-- C10: the legacy-column fallbacks of LoadSidecar fire not only when the
primary column is absent but also when it is present and empty: an empty
`mode` cell falls through to the first non-empty legacy synonym (`tag`, then
`name`), and an empty `group` cell falls through to the legacy `label`
column. -/
theorem load_csv_legacy_fallbacks (m : AnnMap) (k : Int) (t u s : String)
    (ht : t ≠ "") (hu : u ≠ "") :
    load_row m { frame := some k, mode := some "", tag := some t, name := some u,
                 group := some "", label := some s } =
      some (dictInsert m k ⟨t, s⟩) ∧
    load_row m { frame := some k, mode := some "", tag := some "", name := some u,
                 group := some "", label := some s } =
      some (dictInsert m k ⟨u, s⟩) := by
  constructor <;> simp [load_row, pyOrS, pyOrStr, ht, hu]

/-- C10 witness at a concrete row. -/
theorem load_csv_legacy_fallbacks_witness :
    load_row [] { frame := some 7, mode := some "", tag := some "T", name := some "U",
                  group := some "", label := some "L" } =
      some (dictInsert [] 7 ⟨"T", "L"⟩) ∧
    load_row [] { frame := some 7, mode := some "", tag := some "", name := some "U",
                  group := some "", label := some "L" } =
      some (dictInsert [] 7 ⟨"U", "L"⟩) :=
  load_csv_legacy_fallbacks [] 7 "T" "U" "L" (by decide) (by decide)

/-! ### Claim C1: frame-count probing -/

theorem grabAux_count : ∀ (fuel : Nat) (s : SynStream), s.released = false →
    0 ≤ s.pos → s.n - s.pos.toNat < fuel →
    (grabAux s fuel).1 = s.n - s.pos.toNat
  | 0, _, _, _, h => absurd h (by omega)
  | fuel + 1, ⟨n, rep, q, pos, rel⟩, hrel, hpos, h => by
    dsimp only at hrel hpos h ⊢
    subst hrel
    by_cases hlt : pos < (n : Int)
    · have hread : readS ⟨n, rep, q, pos, false⟩ =
          (some pos.toNat, ⟨n, rep, q, pos + 1, false⟩) := by
        simp [readS, hpos, hlt]
      have hrec := grabAux_count fuel ⟨n, rep, q, pos + 1, false⟩ rfl
        (by dsimp only; omega) (by dsimp only; omega)
      dsimp only at hrec
      simp only [grabAux, grabS, hread, Option.isSome_some]
      rw [hrec]
      omega
    · have hnc : ¬ (0 ≤ pos ∧ pos < (n : Int)) := by omega
      have hread : readS ⟨n, rep, q, pos, false⟩ = (none, ⟨n, rep, q, pos, false⟩) := by
        simp [readS, hnc]
      simp only [grabAux, grabS, hread, Option.isSome_none]
      omega

/-- C1 counterexample: over the synthetic stream in which decode succeeds
exactly for indices [0, 2) and fails at 2, an under-reported count of 1 makes
the probing algorithm return 1, not the authoritative 2 the claim demands for
every reported value. -/
theorem probe_count_underreport_cex :
    (probe_frame_count { n := 2, reported := 1, fps := 30, pos := 0, released := false }).1 = 1 ∧
    (probe_frame_count { n := 2, reported := 1, fps := 30, pos := 0, released := false }).1 ≠ 2 := by
  constructor
  · rfl
  · decide

/-- C1 amended: over a synthetic stream with N > 0 decodable frames, probing
yields N whenever the reported count R is non-positive or at least N
(zero-report, exact report or over-report), but yields R itself on an
under-report 0 < R < N; in every such case the result is at most N, so the
store never reports a count containing a frame it cannot decode. -/
theorem probe_count_amended (n : Nat) (r : Int) (fps : ℚ) (pos : Int) (h : 0 < n) :
    (probe_frame_count { n := n, reported := r, fps := fps, pos := pos, released := false }).1 =
      (if r ≤ 0 ∨ (n : Int) ≤ r then (n : Int) else r) ∧
    (probe_frame_count { n := n, reported := r, fps := fps, pos := pos, released := false }).1
      ≤ (n : Int) := by
  have key : (probe_frame_count { n := n, reported := r, fps := fps, pos := pos, released := false }).1
      = if r ≤ 0 ∨ (n : Int) ≤ r then (n : Int) else r := by
    by_cases hr : 0 < r
    · -- seek-to-last branch
      by_cases hle : r ≤ (n : Int)
      · -- the seek lands on r - 1 < n, the decode succeeds, r is accepted
        have hread : readS (setPos (⟨n, r, fps, pos, false⟩ : SynStream) (max 0 (r - 1))) =
            (some (max 0 (min (max 0 (r - 1)) (n : Int))).toNat,
              (⟨n, r, fps, max 0 (min (max 0 (r - 1)) (n : Int)) + 1, false⟩ : SynStream)) := by
          simp [setPos, readS]
          omega
        simp only [probe_frame_count, if_pos hr, hread]
        split_ifs <;> omega
      · -- over-report: the seek clamps to n, the decode fails, the landed
        -- cursor n > 0 is accepted
        have hnc : ¬ (0 ≤ max 0 (min (max 0 (r - 1)) (n : Int)) ∧
            max 0 (min (max 0 (r - 1)) (n : Int)) < (n : Int)) := by omega
        have hread : readS (setPos (⟨n, r, fps, pos, false⟩ : SynStream) (max 0 (r - 1))) =
            (none, (⟨n, r, fps, max 0 (min (max 0 (r - 1)) (n : Int)), false⟩ : SynStream)) := by
          simp [setPos, readS]
          omega
        simp only [probe_frame_count, if_pos hr, hread]
        split_ifs <;> omega
    · -- non-positive report: the sequential grab count n wins the max
      have hcount : (grabAll (setPos (⟨n, r, fps, pos, false⟩ : SynStream) 0)).1 = n := by
        show (grabAll (⟨n, r, fps, max 0 (min 0 (n : Int)), false⟩ : SynStream)).1 = n
        have hp : max 0 (min 0 (n : Int)) = 0 := by omega
        rw [hp]
        have hc := grabAux_count (n + 1) (⟨n, r, fps, 0, false⟩ : SynStream) rfl
          (by norm_num) (by show n - (0 : Int).toNat < n + 1; omega)
        simpa using hc
      simp only [probe_frame_count, if_neg hr, probe_grab_tail, hcount]
      split_ifs <;> omega
  refine ⟨key, ?_⟩
  rw [key]
  split_ifs <;> omega

/-- C1 amended witness (over-report: N = 2, R = 5). -/
theorem probe_count_amended_witness :
    ((probe_frame_count { n := 2, reported := 5, fps := 30, pos := 0, released := false }).1 =
      (if (5 : Int) ≤ 0 ∨ ((2 : Nat) : Int) ≤ 5 then ((2 : Nat) : Int) else 5)) ∧
    (probe_frame_count { n := 2, reported := 5, fps := 30, pos := 0, released := false }).1
      ≤ ((2 : Nat) : Int) :=
  probe_count_amended 2 5 30 0 (by norm_num)

/-! ### Claim C5: failed open mutates nothing -/

/-- C5: when the backend cannot open the container/codec, load_video reports
failure and mutates no state: frame_count, fps, current_frame, the
annotations, the frame cache and the stored path keep their prior values; the
previously held stream (if any) is released but no new stream is installed. -/
theorem load_video_open_failure (openv : String → Option SynStream)
    (fs : String → Option (List Row)) (st : CoreState) (p : String)
    (h : openv p = none) :
    ∃ st', load_video openv fs st p = some (false, st') ∧
      st'.frame_count = st.frame_count ∧ st'.fps = st.fps ∧
      st'.current_frame = st.current_frame ∧ st'.annotations = st.annotations ∧
      st'.frame_cache = st.frame_cache ∧ st'.path = st.path ∧
      st'.cap = st.cap.map releaseS := by
  refine ⟨{ st with cap := st.cap.map releaseS }, ?_, rfl, rfl, rfl, rfl, rfl, rfl, rfl⟩
  simp [load_video, h]

/-- C5 witness: failed open of a fresh core. -/
theorem load_video_open_failure_witness :
    ∃ st', load_video (fun _ => none) (fun _ => none) initState "missing.mp4" =
        some (false, st') ∧
      st'.frame_count = initState.frame_count ∧ st'.fps = initState.fps ∧
      st'.current_frame = initState.current_frame ∧
      st'.annotations = initState.annotations ∧
      st'.frame_cache = initState.frame_cache ∧ st'.path = initState.path ∧
      st'.cap = initState.cap.map releaseS :=
  load_video_open_failure (fun _ => none) (fun _ => none) initState "missing.mp4" rfl

/-! ### Claim C6: boundary indices and end-of-stream -/

/-- C6: with a video loaded whose stream has consumed its last frame,
GetFrame(-1) and GetFrame(frame_count) both return not-found (and leave the
state untouched), and ReadNextFrame returns end-of-stream without altering
current_frame. -/
theorem boundary_not_found (st : CoreState) (c : SynStream)
    (hcap : st.cap = some c) (hend : (c.n : Int) ≤ c.pos) :
    get_frame st (-1) = (none, st) ∧
    get_frame st st.frame_count = (none, st) ∧
    (read_next_frame st).1 = none ∧
    (read_next_frame st).2.current_frame = st.current_frame := by
  have hnc : ¬ (0 ≤ c.pos ∧ c.pos < (c.n : Int)) := by omega
  have hread : readS c = (none, c) := by
    cases hrel : c.released with
    | false => simp [readS, hrel, hnc]
    | true => simp [readS, hrel]
  refine ⟨?_, ?_, ?_, ?_⟩
  · simp [get_frame, hcap]
  · simp [get_frame, hcap]
  · simp [read_next_frame, hcap, hread]
  · simp [read_next_frame, hcap, hread]

/-- C6 witness: a loaded 3-frame video whose stream sits at the end. -/
theorem boundary_not_found_witness :
    get_frame { cap := some { n := 3, reported := 3, fps := 30, pos := 3, released := false },
                path := some "v.mp4", frame_count := 3, fps := 30, current_frame := 2,
                annotations := [], frame_cache := [] } (-1) =
      (none, { cap := some { n := 3, reported := 3, fps := 30, pos := 3, released := false },
               path := some "v.mp4", frame_count := 3, fps := 30, current_frame := 2,
               annotations := [], frame_cache := [] }) ∧
    get_frame { cap := some { n := 3, reported := 3, fps := 30, pos := 3, released := false },
                path := some "v.mp4", frame_count := 3, fps := 30, current_frame := 2,
                annotations := [], frame_cache := [] }
        ({ cap := some { n := 3, reported := 3, fps := 30, pos := 3, released := false },
           path := some "v.mp4", frame_count := 3, fps := 30, current_frame := 2,
           annotations := [], frame_cache := [] } : CoreState).frame_count =
      (none, { cap := some { n := 3, reported := 3, fps := 30, pos := 3, released := false },
               path := some "v.mp4", frame_count := 3, fps := 30, current_frame := 2,
               annotations := [], frame_cache := [] }) ∧
    (read_next_frame { cap := some { n := 3, reported := 3, fps := 30, pos := 3, released := false },
                       path := some "v.mp4", frame_count := 3, fps := 30, current_frame := 2,
                       annotations := [], frame_cache := [] }).1 = none ∧
    (read_next_frame { cap := some { n := 3, reported := 3, fps := 30, pos := 3, released := false },
                       path := some "v.mp4", frame_count := 3, fps := 30, current_frame := 2,
                       annotations := [], frame_cache := [] }).2.current_frame =
      ({ cap := some { n := 3, reported := 3, fps := 30, pos := 3, released := false },
         path := some "v.mp4", frame_count := 3, fps := 30, current_frame := 2,
         annotations := [], frame_cache := [] } : CoreState).current_frame :=
  boundary_not_found _ { n := 3, reported := 3, fps := 30, pos := 3, released := false }
    rfl (by norm_num)

/-! ### Claim C7: set_label persists the whole map -/

/-- C7: while a video is loaded, after any SetLabel(frame, mode, group) — for
any integer frame, with no bounds validation — the entry is present in the
AnnotationMap, and the sidecar file written by the triggered save is the full
serialization of the in-memory map: one row per entry in strictly ascending
frame order, the file being a pure projection of the map. -/
theorem set_label_persists (st : CoreState) (p : String) (f : Int) (mode group : String)
    (hp : st.path = some p) (hne : p ≠ "")
    (hnd : (st.annotations.map Prod.fst).Nodup) :
    dictGet (set_label st f mode group).1.annotations f = some ⟨mode, group⟩ ∧
    (set_label st f mode group).2 =
      some (save_rows (set_label st f mode group).1.annotations) ∧
    List.Pairwise (· < ·)
      ((save_rows (set_label st f mode group).1.annotations).filterMap Row.frame) ∧
    (∀ k l, dictGet (set_label st f mode group).1.annotations k = some l ↔
      ({ frame := some k, mode := some l.mode, tag := none, name := none,
         group := some l.group, label := none } : Row) ∈
        save_rows (set_label st f mode group).1.annotations) := by
  have hA : (set_label st f mode group).1.annotations =
      dictInsert st.annotations f ⟨mode, group⟩ := rfl
  have hnd' : ((dictInsert st.annotations f ⟨mode, group⟩).map Prod.fst).Nodup :=
    dictInsert_keys_nodup _ _ _ hnd
  refine ⟨?_, ?_, ?_, ?_⟩
  · rw [hA, dictGet_insert]
    simp
  · show save_csv { st with annotations := dictInsert st.annotations f ⟨mode, group⟩ } = _
    simp [save_csv, hp, hne, hA]
  · rw [hA, filterMap_frame_save_rows]
    exact pairwise_lt_of_sorted_nodup _ (List.sorted_insertionSort _ _)
      ((List.perm_insertionSort _ _).nodup_iff.mpr hnd')
  · intro k l
    rw [hA]
    constructor
    · intro hkl
      exact List.mem_map.mpr ⟨k,
        (List.mem_insertionSort (· ≤ ·)).mpr (mem_keys_of_dictGet _ _ _ hkl),
        row_for_eq _ _ _ hkl⟩
    · intro hmem
      obtain ⟨k', _, heq⟩ := List.mem_map.mp hmem
      have hf : (row_for (dictInsert st.annotations f ⟨mode, group⟩) k').frame = some k := by
        rw [heq]
      rw [row_for_frame] at hf
      injection hf with hf
      subst hf
      cases hv : dictGet (dictInsert st.annotations f ⟨mode, group⟩) k' with
      | none =>
        rw [row_for, hv] at heq
        simp at heq
      | some v =>
        rw [row_for_eq _ _ _ hv] at heq
        simp only [Row.mk.injEq, Option.some.injEq, and_true, true_and] at heq
        obtain ⟨hm, hg⟩ := heq
        have hveq : v = l := by
          cases v
          cases l
          simp_all
        rw [hveq]

/-- Concrete loaded-video state for the C7 witness. -/
def stSet : CoreState :=
  { cap := some ⟨9, 9, 30, 0, false⟩, path := some "v.mp4", frame_count := 9, fps := 30,
    current_frame := 0, annotations := [(2, ⟨"m", "g"⟩)], frame_cache := [] }

/-- C7 witness: one concrete SetLabel on a loaded core. -/
theorem set_label_persists_witness :
    dictGet (set_label stSet 1 "A" "x").1.annotations 1 = some ⟨"A", "x"⟩ ∧
    (set_label stSet 1 "A" "x").2 =
      some (save_rows (set_label stSet 1 "A" "x").1.annotations) ∧
    List.Pairwise (· < ·)
      ((save_rows (set_label stSet 1 "A" "x").1.annotations).filterMap Row.frame) ∧
    (∀ k l, dictGet (set_label stSet 1 "A" "x").1.annotations k = some l ↔
      ({ frame := some k, mode := some l.mode, tag := none, name := none,
         group := some l.group, label := none } : Row) ∈
        save_rows (set_label stSet 1 "A" "x").1.annotations) :=
  set_label_persists stSet "v.mp4" 1 "A" "x" rfl (by decide) (by decide)

/-! ### Claim C3: fill-between -/

theorem mem_int_range (a b i : Int) : i ∈ int_range a b ↔ a ≤ i ∧ i < b := by
  simp only [int_range, List.mem_map, List.mem_range]
  constructor
  · rintro ⟨j, hj, rfl⟩
    omega
  · intro hi
    exact ⟨(i - a).toNat, by omega, by omega⟩

theorem int_range_nodup (a b : Int) : (int_range a b).Nodup := by
  refine List.Nodup.map ?_ (List.nodup_range _)
  intro x y hxy
  simp only at hxy
  omega

theorem filter_length_congr {α : Type} (p q : α → Bool) :
    ∀ (l : List α), (∀ x ∈ l, p x = q x) →
      (l.filter p).length = (l.filter q).length
  | [], _ => rfl
  | x :: t, h => by
    have hx := h x (List.mem_cons_self _ _)
    have ht := filter_length_congr p q t (fun y hy => h y (List.mem_cons_of_mem _ hy))
    simp only [List.filter_cons, hx]
    cases q x <;> simp [ht]

/-- Effect of `fill_between_labels`'s filling loop over a nodup index list:
every listed unlabeled index gets the fill label, everything else keeps its
binding, and the counter counts exactly the previously-unlabeled listed
indices. -/
theorem fill_fold (mo gr : String) :
    ∀ (l : List Int) (m : AnnMap) (c : Nat), l.Nodup →
      (∀ k, dictGet (l.foldl (fun (acc : AnnMap × Nat) idx =>
          match dictGet acc.1 idx with
          | none => (dictInsert acc.1 idx { mode := mo, group := gr }, acc.2 + 1)
          | some _ => acc) (m, c)).1 k =
        if k ∈ l ∧ dictGet m k = none then some ⟨mo, gr⟩ else dictGet m k) ∧
      (l.foldl (fun (acc : AnnMap × Nat) idx =>
          match dictGet acc.1 idx with
          | none => (dictInsert acc.1 idx { mode := mo, group := gr }, acc.2 + 1)
          | some _ => acc) (m, c)).2 =
        c + (l.filter (fun i => (dictGet m i).isNone)).length
  | [], m, c, _ => by simp
  | x :: t, m, c, hnd => by
    have hxt : x ∉ t := (List.nodup_cons.mp hnd).1
    have hndt : t.Nodup := (List.nodup_cons.mp hnd).2
    cases hx : dictGet m x with
    | none =>
      have ih := fill_fold mo gr t (dictInsert m x ⟨mo, gr⟩) (c + 1) hndt
      have hstep : (x :: t).foldl (fun (acc : AnnMap × Nat) idx =>
          match dictGet acc.1 idx with
          | none => (dictInsert acc.1 idx { mode := mo, group := gr }, acc.2 + 1)
          | some _ => acc) (m, c) =
          t.foldl (fun (acc : AnnMap × Nat) idx =>
          match dictGet acc.1 idx with
          | none => (dictInsert acc.1 idx { mode := mo, group := gr }, acc.2 + 1)
          | some _ => acc) (dictInsert m x ⟨mo, gr⟩, c + 1) := by
        simp [List.foldl_cons, hx]
      rw [hstep]
      constructor
      · intro k
        rw [ih.1 k]
        by_cases hkx : k = x
        · subst hkx
          rw [dictGet_insert]
          simp [hxt, hx]
        · rw [dictGet_insert, if_neg (fun e : x = k => hkx e.symm)]
          simp [List.mem_cons, hkx]
      · rw [ih.2]
        have hcong : (t.filter (fun i => (dictGet (dictInsert m x ⟨mo, gr⟩) i).isNone)).length
            = (t.filter (fun i => (dictGet m i).isNone)).length := by
          refine filter_length_congr _ _ t (fun y hy => ?_)
          rw [dictGet_insert, if_neg (fun e : x = y => hxt (e ▸ hy))]
        rw [hcong]
        simp [List.filter_cons, hx]
        omega
    | some v =>
      have ih := fill_fold mo gr t m c hndt
      have hstep : (x :: t).foldl (fun (acc : AnnMap × Nat) idx =>
          match dictGet acc.1 idx with
          | none => (dictInsert acc.1 idx { mode := mo, group := gr }, acc.2 + 1)
          | some _ => acc) (m, c) =
          t.foldl (fun (acc : AnnMap × Nat) idx =>
          match dictGet acc.1 idx with
          | none => (dictInsert acc.1 idx { mode := mo, group := gr }, acc.2 + 1)
          | some _ => acc) (m, c) := by
        simp [List.foldl_cons, hx]
      rw [hstep]
      constructor
      · intro k
        rw [ih.1 k]
        by_cases hkx : k = x
        · subst hkx
          simp [hx]
        · simp [List.mem_cons, hkx]
      · rw [ih.2]
        simp [List.filter_cons, hx]

/-- C3: FillBetween on an unlabeled current frame with found neighbors: when
the two neighbor labels agree, every strictly-between unlabeled index receives
the shared pair, already-labeled indices (the neighbors included) keep their
labels, and the outcome reports the count of newly filled frames (zero
reported as the distinct nothing-to-fill outcome); when the neighbor pairs
differ in mode or group, it rejects and mutates nothing. -/
theorem fill_between_spec (st : CoreState) (c : SynStream)
    (hcap : st.cap = some c)
    (hcur : dictGet st.annotations st.current_frame = none)
    (p q : Int) (lp lq : Label)
    (hp : find_neighbor_down st.annotations st.frame_count st.current_frame = some (p, lp))
    (hq : find_neighbor_up st.annotations st.frame_count st.current_frame = some (q, lq)) :
    (lp = lq →
      (∀ i, dictGet (fill_between_labels st).2.1.annotations i =
        if p < i ∧ i < q ∧ dictGet st.annotations i = none then some lp
        else dictGet st.annotations i) ∧
      (fill_between_labels st).1 =
        (if ((int_range (p + 1) q).filter
              (fun i => (dictGet st.annotations i).isNone)).length = 0
         then FillOutcome.noUnlabeled
         else FillOutcome.filled ((int_range (p + 1) q).filter
              (fun i => (dictGet st.annotations i).isNone)).length)) ∧
    (lp ≠ lq → fill_between_labels st = (.badBoundaries, st, none)) := by
  have hgl : get_label st (some st.current_frame) = none := by
    simp [get_label, hcur]
  constructor
  · intro heq
    subst heq
    obtain ⟨hmap, hcount⟩ := fill_fold lp.mode lp.group (int_range (p + 1) q)
      st.annotations 0 (int_range_nodup _ _)
    have hrun : fill_between_labels st =
        (if ((int_range (p + 1) q).foldl (fun (acc : AnnMap × Nat) idx =>
            match dictGet acc.1 idx with
            | none => (dictInsert acc.1 idx { mode := lp.mode, group := lp.group }, acc.2 + 1)
            | some _ => acc) (st.annotations, 0)).2 = 0
         then (FillOutcome.noUnlabeled,
            { st with annotations := ((int_range (p + 1) q).foldl (fun (acc : AnnMap × Nat) idx =>
              match dictGet acc.1 idx with
              | none => (dictInsert acc.1 idx { mode := lp.mode, group := lp.group }, acc.2 + 1)
              | some _ => acc) (st.annotations, 0)).1 }, none)
         else (FillOutcome.filled ((int_range (p + 1) q).foldl (fun (acc : AnnMap × Nat) idx =>
            match dictGet acc.1 idx with
            | none => (dictInsert acc.1 idx { mode := lp.mode, group := lp.group }, acc.2 + 1)
            | some _ => acc) (st.annotations, 0)).2,
            { st with annotations := ((int_range (p + 1) q).foldl (fun (acc : AnnMap × Nat) idx =>
              match dictGet acc.1 idx with
              | none => (dictInsert acc.1 idx { mode := lp.mode, group := lp.group }, acc.2 + 1)
              | some _ => acc) (st.annotations, 0)).1 },
            save_csv { st with annotations := ((int_range (p + 1) q).foldl (fun (acc : AnnMap × Nat) idx =>
              match dictGet acc.1 idx with
              | none => (dictInsert acc.1 idx { mode := lp.mode, group := lp.group }, acc.2 + 1)
              | some _ => acc) (st.annotations, 0)).1 })) := by
      simp only [fill_between_labels, hcap, hgl, hp, hq]
      rw [if_pos ⟨trivial, trivial⟩]
    constructor
    · intro i
      rw [hrun]
      have hpt : ∀ X : FillOutcome × CoreState × Option (List Row),
          X.2.1.annotations = X.2.1.annotations := fun _ => rfl
      by_cases hz : ((int_range (p + 1) q).foldl (fun (acc : AnnMap × Nat) idx =>
          match dictGet acc.1 idx with
          | none => (dictInsert acc.1 idx { mode := lp.mode, group := lp.group }, acc.2 + 1)
          | some _ => acc) (st.annotations, 0)).2 = 0 <;>
        [rw [if_pos hz]; rw [if_neg hz]] <;>
        · dsimp only
          rw [hmap i]
          by_cases hcnd : p < i ∧ i < q ∧ dictGet st.annotations i = none
          · rw [if_pos ⟨(mem_int_range _ _ _).mpr ⟨by omega, hcnd.2.1⟩, hcnd.2.2⟩,
              if_pos hcnd]
          · rw [if_neg ?_, if_neg hcnd]
            rintro ⟨hm, hn⟩
            rw [mem_int_range] at hm
            exact hcnd ⟨by omega, by omega, hn⟩
    · rw [hrun]
      have h2 : ((int_range (p + 1) q).foldl (fun (acc : AnnMap × Nat) idx =>
          match dictGet acc.1 idx with
          | none => (dictInsert acc.1 idx { mode := lp.mode, group := lp.group }, acc.2 + 1)
          | some _ => acc) (st.annotations, 0)).2 =
          ((int_range (p + 1) q).filter (fun i => (dictGet st.annotations i).isNone)).length := by
        rw [hcount]
        omega
      rw [h2]
      split_ifs <;> rfl
  · intro hne
    have hcond : ¬ (lp.mode = lq.mode ∧ lp.group = lq.group) := by
      rintro ⟨h1, h2⟩
      refine hne ?_
      cases lp
      cases lq
      simp_all
    simp only [fill_between_labels, hcap, hgl, hp, hq]
    rw [if_neg hcond]

/-- Concrete state for the C3 witness: labels only at frames 5 and 15 with
the same pair and the cursor at 10. -/
def stFill : CoreState :=
  { cap := some ⟨20, 20, 30, 0, false⟩, path := some "v.mp4", frame_count := 20,
    fps := 30, current_frame := 10,
    annotations := [(5, ⟨"A", "x"⟩), (15, ⟨"A", "x"⟩)], frame_cache := [] }

/-- C3 witness: the spec's 5/15 example instantiated. -/
theorem fill_between_spec_witness :
    ((⟨"A", "x"⟩ : Label) = ⟨"A", "x"⟩ →
      (∀ i, dictGet (fill_between_labels stFill).2.1.annotations i =
        if 5 < i ∧ i < 15 ∧ dictGet stFill.annotations i = none then some ⟨"A", "x"⟩
        else dictGet stFill.annotations i) ∧
      (fill_between_labels stFill).1 =
        (if ((int_range (5 + 1) 15).filter
              (fun i => (dictGet stFill.annotations i).isNone)).length = 0
         then FillOutcome.noUnlabeled
         else FillOutcome.filled ((int_range (5 + 1) 15).filter
              (fun i => (dictGet stFill.annotations i).isNone)).length)) ∧
    ((⟨"A", "x"⟩ : Label) ≠ ⟨"A", "x"⟩ →
      fill_between_labels stFill = (.badBoundaries, stFill, none)) :=
  fill_between_spec stFill ⟨20, 20, 30, 0, false⟩ rfl rfl 5 15 ⟨"A", "x"⟩ ⟨"A", "x"⟩
    (by decide) (by decide)

/-! ### Claim C8: cached indices always hit -/

theorem probe_grab_tail_nonneg (s : SynStream) (rep : Int) :
    0 ≤ (probe_grab_tail s rep).1 := by
  unfold probe_grab_tail
  dsimp only
  omega

theorem probe_frame_count_nonneg (s : SynStream) : 0 ≤ (probe_frame_count s).1 := by
  unfold probe_frame_count
  dsimp only
  by_cases hr : 0 < s.reported
  · rw [if_pos hr]
    rcases hread : readS (setPos s (max 0 (s.reported - 1))) with ⟨o, s'⟩
    cases o with
    | some f =>
      dsimp only
      omega
    | none =>
      dsimp only
      by_cases hf : 0 < s'.pos
      · rw [if_pos hf]
        dsimp only
        omega
      · rw [if_neg hf]
        exact probe_grab_tail_nonneg _ _
  · rw [if_neg hr]
    exact probe_grab_tail_nonneg _ _

theorem prime_cache_length_le : ∀ (k : Nat) (s : SynStream),
    (prime_cache s k).1.length ≤ k
  | 0, s => by simp [prime_cache]
  | k + 1, s => by
    rcases hread : readS s with ⟨o, s'⟩
    cases o with
    | none => simp [prime_cache, hread]
    | some f =>
      have ht := prime_cache_length_le k s'
      simp [prime_cache, hread]
      omega

/-- C8: after a successful Open, every index inside the primed frame cache is
served by the cache-hit branch of get_frame: the call yields a frame (never
not-found) and moves only current_frame, so the seek-and-decode failure path
is unreachable for cached indices. -/
theorem cache_hit_total (openv : String → Option SynStream)
    (fs : String → Option (List Row)) (st0 : CoreState) (vp : String) (st : CoreState)
    (h : load_video openv fs st0 vp = some (true, st))
    (i : Int) (h0 : 0 ≤ i) (hi : i < (st.frame_cache.length : Int)) :
    (get_frame st i).1.isSome ∧ (get_frame st i).2 = { st with current_frame := i } := by
  unfold load_video at h
  cases hov : openv vp with
  | none =>
    rw [hov] at h
    simp at h
  | some cap =>
    rw [hov] at h
    dsimp only at h
    cases hcsv : load_csv fs (derive_csv_path_of (some vp)) [] with
    | none =>
      rw [hcsv] at h
      simp at h
    | some anns =>
      rw [hcsv] at h
      dsimp only at h
      injection h with h
      injection h with hb h
      subst h
      dsimp only at hi ⊢
      have hnn := probe_frame_count_nonneg cap
      have hlen := prime_cache_length_le
        (min 60 (probe_frame_count cap).1).toNat (setPos (probe_frame_count cap).2 0)
      have hcount : (i : Int) <
          ((prime_cache (setPos (probe_frame_count cap).2 0)
            (min 60 (probe_frame_count cap).1).toNat).1.length : Int) := hi
      have hbound : ¬ (i < 0 ∨ (probe_frame_count cap).1 ≤ i) := by omega
      have hcache : i.toNat < (prime_cache (setPos (probe_frame_count cap).2 0)
          (min 60 (probe_frame_count cap).1).toNat).1.length := by omega
      unfold get_frame
      dsimp only
      rw [if_neg hbound, dif_pos hcache]
      exact ⟨rfl, rfl⟩

/-- The state produced by the C8 witness's successful load. -/
def stLoaded : CoreState :=
  { cap := some ⟨5, 5, 30, 0, false⟩, path := some "v.mp4", frame_count := 5, fps := 30,
    current_frame := 0, annotations := [], frame_cache := [0, 1, 2, 3, 4] }

/-- C8 witness: a concrete 5-frame load, probing index 2 of the cache. -/
theorem cache_hit_total_witness :
    (get_frame stLoaded 2).1.isSome ∧
    (get_frame stLoaded 2).2 = { stLoaded with current_frame := 2 } :=
  cache_hit_total (fun _ => some ⟨5, 5, 30, 0, false⟩) (fun _ => none) initState "v.mp4"
    stLoaded (by decide) 2 (by decide) (by decide)

end MIGE
